import Mathlib

/-!
Shallow embedding of the tourism-mlops-wellness pipeline.

Sources embedded:
* `src/tourism_project/src/data_prep.py` — column-type inference (`infer_cols`),
  cleaning (deduplicate, drop missing label, coerce label to int) and the
  stratified train/test split of `main`.
* `src/tourism_project/src/train.py` — metric computation (`evaluate_model`)
  and the best-candidate selection loop of `main`.
* `src/app.py` — artifact download / load and the prediction form.
* `src/tourism_project/src/push_space.py` — `ensure_space_readme`.

Machine floats are modelled by `ℚ` plus an explicit not-a-number marker
(`MVal.nan`) where the code can produce NaN; binary class labels (the 0/1
`ProdTaken` column) are modelled by `Bool` with `true` standing for class 1.
-/

/-- Cell values of a pandas dataframe: an explicit missing marker (`NaN`/`NA`),
a numeric value, or a textual value. -/
inductive Value where
  | na : Value
  | num : ℚ → Value
  | str : String → Value
deriving DecidableEq, Repr

/-- Value of a metric entry: a finite float or the IEEE `NaN` produced by
`float("nan")` in `evaluate_model`. -/
inductive MVal where
  | num : ℚ → MVal
  | nan : MVal
deriving DecidableEq, Repr

/-- Python `>` on two metric values: ordinary comparison on finite floats,
and `False` whenever either side is `NaN` (IEEE comparison semantics). -/
def mvGt : MVal → MVal → Bool
  | MVal.num a, MVal.num b => decide (b < a)
  | _, _ => false

/-! Section: train.py — metric scores.

`evaluate_model` calls sklearn's `accuracy_score`, `precision_score`,
`recall_score`, `f1_score` (the latter three with `zero_division=0`) and
`roc_auc_score`.  The scores are embedded below from their documented
definitions on binary labels; `zero_division=0` becomes `safeDiv`, which
returns 0 on a zero denominator instead of dividing. -/

/-- Division with the `zero_division=0` convention: a zero denominator
yields 0 instead of an error. -/
def safeDiv (a b : ℚ) : ℚ := if b = 0 then 0 else a / b

/-- Count of (true label, predicted label) pairs satisfying `p`. -/
def countPairs (p : Bool → Bool → Bool) (yt yhat : List Bool) : ℕ :=
  (yt.zip yhat).countP (fun ab => p ab.1 ab.2)

/-- True positives: label 1 predicted as 1. -/
def tpCount (yt yhat : List Bool) : ℕ := countPairs (fun a b => a && b) yt yhat

/-- False positives: label 0 predicted as 1. -/
def fpCount (yt yhat : List Bool) : ℕ := countPairs (fun a b => !a && b) yt yhat

/-- False negatives: label 1 predicted as 0. -/
def fnCount (yt yhat : List Bool) : ℕ := countPairs (fun a b => a && !b) yt yhat

/-- Fraction of positions where prediction equals label. -/
def accuracy_score (yt yhat : List Bool) : ℚ :=
  safeDiv (countPairs (fun a b => a == b) yt yhat) (yt.zip yhat).length

/-- Precision `tp / (tp + fp)` with zero/zero treated as 0. -/
def precision_score (yt yhat : List Bool) : ℚ :=
  safeDiv (tpCount yt yhat) (tpCount yt yhat + fpCount yt yhat)

/-- Recall `tp / (tp + fn)` with zero/zero treated as 0. -/
def recall_score (yt yhat : List Bool) : ℚ :=
  safeDiv (tpCount yt yhat) (tpCount yt yhat + fnCount yt yhat)

/-- F1 `2*tp / (2*tp + fp + fn)` with zero/zero treated as 0. -/
def f1_score (yt yhat : List Bool) : ℚ :=
  safeDiv (2 * tpCount yt yhat) (2 * tpCount yt yhat + fpCount yt yhat + fnCount yt yhat)

/-- Sum of pairwise comparison scores for the Mann–Whitney formulation of
ROC-AUC: 1 for a correctly ordered (positive, negative) score pair, 1/2 for a
tie, 0 otherwise. -/
def aucPairs (pos neg : List ℚ) : ℚ :=
  (pos.map (fun p => (neg.map (fun n => if n < p then (1 : ℚ) else if n = p then 1/2 else 0)).sum)).sum

/-- Modelled from sklearn's `roc_auc_score` on binary labels: the
Mann–Whitney statistic over (positive, negative) score pairs, undefined
(`none`, i.e. a raised `ValueError`) when only one class is present in the
true labels. -/
def roc_auc_score (yt : List Bool) (proba : List ℚ) : Option ℚ :=
  let pairs := yt.zip proba
  let pos := (pairs.filter (fun x => x.1)).map (fun x => x.2)
  let neg := (pairs.filter (fun x => !x.1)).map (fun x => x.2)
  if pos.length = 0 ∨ neg.length = 0 then none
  else some (safeDiv (aucPairs pos neg) (pos.length * neg.length))

/-! Section: train.py — evaluate_model and the selection loop. -/

/-- A fitted classifier: a prediction function on transformed feature rows,
and optionally (when the Python object `hasattr(model, "predict_proba")`) a
positive-class probability function returning column `[:, 1]`. -/
structure MLModel where
  predict : List (List ℚ) → List Bool
  predict_proba : Option (List (List ℚ) → List ℚ)

/-- A metrics record: the Python dict built by `evaluate_model`, as an
insertion-ordered association list from metric name to value. -/
abbrev MetricsRec : Type := List (String × MVal)

/-- Embedding of `train.py`'s `evaluate_model`: compute `proba` when the
model exposes `predict_proba`, predict, build the four-metric dict, then
append `roc_auc` (NaN if `roc_auc_score` raised) when `proba` was computed. -/
def evaluate_model (model : MLModel) (Xt : List (List ℚ)) (yt : List Bool) : MetricsRec :=
  let proba := model.predict_proba.map (fun f => f Xt)
  let yhat := model.predict Xt
  let metrics : MetricsRec :=
    [("accuracy", MVal.num (accuracy_score yt yhat)),
     ("precision", MVal.num (precision_score yt yhat)),
     ("recall", MVal.num (recall_score yt yhat)),
     ("f1", MVal.num (f1_score yt yhat))]
  match proba with
  | none => metrics
  | some p =>
      match roc_auc_score yt p with
      | some v => metrics ++ [("roc_auc", MVal.num v)]
      | none => metrics ++ [("roc_auc", MVal.nan)]

/-- Python `metrics.get("f1", -1)`: the stored `f1` entry, defaulting to -1. -/
def f1Of (m : MetricsRec) : MVal := (m.lookup "f1").getD (MVal.num (-1))

/-- Numeric reading of an `f1` entry (the entries this program stores under
`"f1"` are always finite); `NaN` is mapped to the sentinel -1, which the
selection-loop theorems only use under a no-NaN hypothesis. -/
def qF1 (m : MetricsRec) : ℚ :=
  match f1Of m with
  | MVal.num q => q
  | MVal.nan => -1

/-- Accumulator of `train.py`'s selection loop:
`best_name, best_model, best_metrics`. -/
structure BestState where
  best_name : Option String
  best_model : Option MLModel
  best_metrics : MetricsRec

/-- Initial accumulator: `None, None, {"f1": -1.0}`. -/
def initBest : BestState := ⟨none, none, [("f1", MVal.num (-1))]⟩

/-- Embedding of the candidate loop in `train.py`'s `main`: for each
candidate in menu order, fit, evaluate, and replace the best exactly when
`metrics.get("f1", -1) > best_metrics.get("f1", -1)`. -/
def trainLoop (Xt_train : List (List ℚ)) (y_train : List Bool)
    (Xt_test : List (List ℚ)) (y_test : List Bool)
    (fit : String → List (List ℚ) → List Bool → MLModel) :
    List String → BestState → BestState
  | [], best => best
  | name :: rest, best =>
      let model := fit name Xt_train y_train
      let metrics := evaluate_model model Xt_test y_test
      let best' :=
        if mvGt (f1Of metrics) (f1Of best.best_metrics) then
          BestState.mk (some name) (some model) metrics
        else best
      trainLoop Xt_train y_train Xt_test y_test fit rest best'

/-- The fixed candidate menu of `train.py`: `{"logreg": ..., "rf": ...}`,
iterated in insertion order. -/
def candidateNames : List String := ["logreg", "rf"]

/-- Selection portion of `train.py`'s `main`: run the loop over the fixed
two-candidate menu starting from the sentinel accumulator.  `fit name`
stands for `candidates[name].fit(Xt_train, y_train)`. -/
def mainSelect (Xt_train : List (List ℚ)) (y_train : List Bool)
    (Xt_test : List (List ℚ)) (y_test : List Bool)
    (fit : String → List (List ℚ) → List Bool → MLModel) : BestState :=
  trainLoop Xt_train y_train Xt_test y_test fit candidateNames initBest

/-- Metrics record the loop computes for candidate `name`: fit it on the
training data, evaluate it on the test data. -/
def candMetrics (Xt_train : List (List ℚ)) (y_train : List Bool)
    (Xt_test : List (List ℚ)) (y_test : List Bool)
    (fit : String → List (List ℚ) → List Bool → MLModel) (name : String) : MetricsRec :=
  evaluate_model (fit name Xt_train y_train) Xt_test y_test

/-! Section: data_prep.py — column-type inference. -/

/-- The fixed label column name (`TARGET = "ProdTaken"`). -/
def TARGET : String := "ProdTaken"

/-- One dataframe column as seen by `infer_cols`: its name and the result of
`pd.api.types.is_numeric_dtype` on it. -/
structure Column where
  name : String
  numericDtype : Bool
deriving DecidableEq, Repr

/-- Lexicographic comparison of character lists by code point, the order
Python's `sorted` uses on strings. -/
def lexLe : List Char → List Char → Bool
  | [], _ => true
  | _ :: _, [] => false
  | a :: as, b :: bs => if a < b then true else if a = b then lexLe as bs else false

/-- String comparison underlying Python's `sorted`. -/
def strLe (a b : String) : Bool := lexLe a.data b.data

/-- Insertion of a string into an already sorted list, keeping order. -/
def insertSorted (s : String) : List String → List String
  | [] => [s]
  | t :: rest => if strLe s t then s :: t :: rest else t :: insertSorted s rest

/-- Python `sorted` on a list of strings, as a stable insertion sort. -/
def pySorted (l : List String) : List String := l.foldr insertSorted []

/-- The classification loop of `infer_cols`: walk the columns in order,
skip the label column, and route each remaining name to the numeric or the
categorical list according to its dtype. -/
def splitCols : List Column → List String × List String
  | [] => ([], [])
  | c :: rest =>
      let p := splitCols rest
      if c.name = TARGET then p
      else if c.numericDtype then (c.name :: p.1, p.2)
      else (p.1, c.name :: p.2)

/-- Embedding of `data_prep.py`'s `infer_cols`: classify every non-label
column by dtype, then return both name lists sorted. -/
def infer_cols (cols : List Column) : List String × List String :=
  (pySorted (splitCols cols).1, pySorted (splitCols cols).2)

/-! Section: data_prep.py — cleaning and the stratified split. -/

/-- Walk of `drop_duplicates()`: keep elements not seen before, in order. -/
def dropDuplicatesAux {α : Type} [DecidableEq α] : List α → List α → List α
  | _, [] => []
  | seen, r :: rest =>
      if r ∈ seen then dropDuplicatesAux seen rest
      else r :: dropDuplicatesAux (r :: seen) rest

/-- Pandas `drop_duplicates()`: keep the first occurrence of every element. -/
def dropDuplicates {α : Type} [DecidableEq α] (l : List α) : List α :=
  dropDuplicatesAux [] l

/-- Pandas `.astype(int)` on one label cell: a float truncates toward zero,
a string parses as an integer, and anything else (including `NA`, already
dropped before this step) raises — modelled as `none`. -/
def valueToInt : Value → Option ℤ
  | Value.na => none
  | Value.num q => some (if q < 0 then ⌈q⌉ else ⌊q⌋)
  | Value.str s => s.toInt?

/-- Simple deterministic linear congruential step, standing in for the
split's seeded random number generator. -/
def lcgStep (s : ℕ) : ℕ := (1664525 * s + 1013904223) % 4294967296

/-- Modelled from the spec: the seeded shuffle inside sklearn's stratified
`train_test_split` ("same seed always yields the same split").  A concrete
deterministic permutation drawn from the seed; which permutation it is does
not affect the partition guarantee being verified. -/
def seededShuffle : ℕ → List ℕ → List ℕ
  | _, [] => []
  | s, a :: l =>
      (a :: l).get ⟨s % (a :: l).length, Nat.mod_lt _ (Nat.succ_pos _)⟩ ::
        seededShuffle (lcgStep s) ((a :: l).eraseIdx (s % (a :: l).length))
termination_by _ l => l.length
decreasing_by
  simp [List.length_eraseIdx, Nat.mod_lt _ (Nat.succ_pos l.length)]

/-- Positions (into the cleaned dataframe) whose label equals `c`. -/
def idxOfClass (labels : List ℤ) (c : ℤ) : List ℕ :=
  (List.range labels.length).filter (fun i => labels.get? i = some c)

/-- Distinct label values in order of first appearance. -/
def classValues (labels : List ℤ) : List ℤ := dropDuplicates labels

/-- Modelled from the spec: sklearn's stratified `train_test_split` with
`test_size=0.2`.  Per class, its positions are shuffled by the seed and a
fifth of them (rounded up) is held out for test; the remaining positions
form the train side.  Returns `(train positions, test positions)` into the
cleaned dataframe. -/
def stratifiedSplit (seed : ℕ) (labels : List ℤ) : List ℕ × List ℕ :=
  let parts := (classValues labels).map (fun c =>
    let idxs := seededShuffle seed (idxOfClass labels c)
    let nTest := (idxs.length + 4) / 5
    (idxs.drop nTest, idxs.take nTest))
  ((parts.map (fun p => p.1)).flatten, (parts.map (fun p => p.2)).flatten)

/-- A raw dataframe: its column names in order and its rows, each row a list
of cell values aligned with the column list. -/
structure DFrame where
  cols : List String
  rows : List (List Value)

/-- Value of the label column in one row (`none` when the row is shorter
than the label's column position). -/
def labelCell (df : DFrame) (row : List Value) : Option Value :=
  row.get? (df.cols.indexOf TARGET)

/-- Result of the cleaning/split portion of `data_prep.py`'s `main`: the
cleaned feature rows and integer labels, and the two position lists drawn
by the stratified split. -/
structure SplitResult where
  cleanedRows : List (List Value)
  labels : List ℤ
  trainIdx : List ℕ
  testIdx : List ℕ

/-- Embedding of the cleaning and split steps of `data_prep.py`'s `main`:
abort naming the label column if it is absent from the schema; otherwise
drop duplicate rows, drop rows whose label is `NA`, coerce the label to an
integer (abort if impossible), and stratified-split with seed 42 and test
fraction 0.2. -/
def cleanAndSplit (df : DFrame) : Except String SplitResult :=
  if TARGET ∈ df.cols then
    let d1 := dropDuplicates df.rows
    let d2 := d1.filter (fun r => !(labelCell df r = some Value.na))
    match (d2.map (fun r => ((labelCell df r).getD Value.na))).mapM valueToInt with
    | none => Except.error "invalid literal for int()"
    | some labels =>
        let split := stratifiedSplit 42 labels
        Except.ok (SplitResult.mk d2 labels split.1 split.2)
  else
    Except.error ("Target column '" ++ TARGET ++ "' not found in dataset columns: " ++ toString df.cols)

/-! Section: app.py — artifact download, form assembly, prediction. -/

/-- The artifact blobs `app.py` downloads before doing anything else. -/
def REQUIRED : List String := ["preprocessor.joblib", "model.joblib", "meta.joblib"]

/-- The metadata blob written by `data_prep.py` and read back with
`meta.get("numeric_cols", [])` / `meta.get("categorical_cols", [])`. -/
structure MetaBlob where
  numeric_cols : List String
  categorical_cols : List String

/-- Content of one file in the model repository: a fitted preprocessor (a
transform from one raw record to a feature row), a fitted model, or the
metadata dict. -/
inductive Blob where
  | preproc (f : List (String × Value) → List ℚ)
  | model (m : MLModel)
  | meta (m : MetaBlob)

/-- A remote repository: the filenames it holds, with their contents. -/
abbrev Repo := List (String × Blob)

/-- Modelled from the hosted-artifact API: `hf_hub_download` returns the
file when the repository has it and raises (an `EntryNotFoundError`,
surfaced to the user by the app runtime) when it does not. -/
def hf_hub_download (repo : Repo) (fname : String) : Except String Blob :=
  match repo.lookup fname with
  | some blob => Except.ok blob
  | none => Except.error ("EntryNotFoundError: " ++ fname)

/-- The `for fname in REQUIRED` download loop of `app.py`: download each
required blob in order into `local_files`; the first missing file aborts
the whole script. -/
def downloadRequired (repo : Repo) : Except String (List (String × Blob)) :=
  REQUIRED.foldlM
    (fun acc fname => (hf_hub_download repo fname).map (fun b => acc ++ [(fname, b)])) []

/-- Python dict assignment `d[k] = v`: overwrite in place if the key exists,
else append. -/
def dictInsert (d : List (String × Value)) (k : String) (v : Value) : List (String × Value) :=
  if d.any (fun kv => kv.1 = k) then d.map (fun kv => if kv.1 = k then (k, v) else kv)
  else d ++ [(k, v)]

/-- The form loop of `app.py`: one `st.number_input(c, value=0.0)` per
numeric column, then one `st.text_input(c, value="")` per categorical
column, written into the `inputs` dict in that order.  `user c` is the value
the user typed into field `c` (`none` = field left at its default). -/
def formInputs (meta : MetaBlob) (user : String → Option Value) : List (String × Value) :=
  let d1 := meta.numeric_cols.foldl
    (fun d c => dictInsert d c ((user c).getD (Value.num 0))) []
  meta.categorical_cols.foldl
    (fun d c => dictInsert d c ((user c).getD (Value.str ""))) d1

/-- Python `X = pd.DataFrame([inputs], columns=all_cols)` with
`all_cols = num_cols + cat_cols`: the single raw record reassembled in
exactly the metadata's column order, a key absent from `inputs` becoming
`NaN`. -/
def assembleRecord (meta : MetaBlob) (inputs : List (String × Value)) : List (String × Value) :=
  (meta.numeric_cols ++ meta.categorical_cols).map
    (fun c => (c, (inputs.lookup c).getD Value.na))

/-- Integer class label of a Boolean prediction (`int(model.predict(Xt)[0])`). -/
def boolToInt (b : Bool) : ℤ := if b then 1 else 0

/-- What the app reports after the form is submitted: the integer class and,
when the model exposes probabilities, the positive-class probability. -/
structure AppOutcome where
  pred : ℤ
  proba : Option ℚ
deriving DecidableEq

/-- The `if submitted:` body of `app.py`: assemble the record in metadata
column order, transform it, read the positive-class probability when
available, predict, and report both. -/
def predictOutcome (preproc : List (String × Value) → List ℚ) (m : MLModel)
    (meta : MetaBlob) (user : String → Option Value) : AppOutcome :=
  let X := assembleRecord meta (formInputs meta user)
  let Xt := preproc X
  let proba := m.predict_proba.map (fun f => (f [Xt]).headD 0)
  let pred := boolToInt ((m.predict [Xt]).headD false)
  AppOutcome.mk pred proba

/-- Embedding of one run of the `app.py` script: download the three required
blobs (any missing one aborts before anything else happens), load them,
build the form, and — only if the user submitted it — predict.  `Except.ok
none` is a run that rendered the form without a submission. -/
def runApp (repo : Repo) (user : String → Option Value) (submitted : Bool) :
    Except String (Option AppOutcome) :=
  match downloadRequired repo with
  | Except.error e => Except.error e
  | Except.ok files =>
      match files.lookup "preprocessor.joblib", files.lookup "model.joblib",
            files.lookup "meta.joblib" with
      | some (Blob.preproc f), some (Blob.model m), some (Blob.meta me) =>
          if submitted then Except.ok (some (predictOutcome f m me user))
          else Except.ok none
      | _, _, _ => Except.error "joblib.load: unexpected artifact content"

/-! Section: push_space.py — ensure_space_readme. -/

/-- Python `str.lstrip()`: drop leading whitespace. -/
def pyLstrip (s : String) : String := String.mk (s.data.dropWhile Char.isWhitespace)

/-- Python `str.strip()`: drop leading and trailing whitespace. -/
def pyStrip (s : String) : String :=
  String.mk (((s.data.dropWhile Char.isWhitespace).reverse.dropWhile Char.isWhitespace).reverse)

/-- Python `str.lower()`. -/
def pyLower (s : String) : String := String.mk (s.data.map Char.toLower)

/-- Python `str.startswith(pre)`. -/
def pyStartsWith (pre s : String) : Bool := pre.data.isPrefixOf s.data

/-- The `README_HEADER_TMPL.format(sdk=sdk.strip().lower())` string. -/
def readmeHeader (sdk : String) : String :=
  "---\ntitle: Wellness Tourism App\nsdk: " ++ pyLower (pyStrip sdk) ++ "\napp_file: app.py\n---\n"

/-- Embedding of `push_space.py`'s `ensure_space_readme`, acting on the
README file's content (`none` = the file does not exist): write the header
if the file is absent, prepend it if the existing content lacks YAML front
matter, and otherwise leave the content untouched. -/
def ensure_space_readme (sdk : String) (readme : Option String) : Option String :=
  match readme with
  | none => some (readmeHeader sdk)
  | some content =>
      if pyStartsWith "---" (pyLstrip content) then some content
      else some (readmeHeader sdk ++ "\n" ++ content)

/-! Section: general lemmas about the embedded definitions. -/

/-- Safe division of nonnegative rationals is nonnegative. -/
lemma safeDiv_nonneg {a b : ℚ} (ha : 0 ≤ a) (hb : 0 ≤ b) : 0 ≤ safeDiv a b := by
  unfold safeDiv
  split
  · exact le_refl 0
  · exact div_nonneg ha hb

/-- F1 values produced by `f1_score` are never negative. -/
lemma f1_score_nonneg (yt yhat : List Bool) : 0 ≤ f1_score yt yhat := by
  unfold f1_score
  apply safeDiv_nonneg <;> positivity

/-- The `f1` entry of every record built by `evaluate_model` is the finite
`f1_score` of the model's predictions. -/
lemma f1Of_evaluate_model (model : MLModel) (Xt : List (List ℚ)) (yt : List Bool) :
    f1Of (evaluate_model model Xt yt) = MVal.num (f1_score yt (model.predict Xt)) := by
  unfold evaluate_model f1Of
  cases hp : model.predict_proba with
  | none => simp [List.lookup]
  | some f =>
      simp only [Option.map_some']
      cases roc_auc_score yt (f Xt) with
      | none => simp [List.lookup]
      | some v => simp [List.lookup]

/-- Numeric reading of the `f1` entry of an `evaluate_model` record. -/
lemma qF1_evaluate_model (model : MLModel) (Xt : List (List ℚ)) (yt : List Bool) :
    qF1 (evaluate_model model Xt yt) = f1_score yt (model.predict Xt) := by
  unfold qF1
  rw [f1Of_evaluate_model]

/-- Comparison of two finite metric values is the rational comparison. -/
lemma mvGt_num (a b : ℚ) : mvGt (MVal.num a) (MVal.num b) = decide (b < a) := rfl

/-- A left fold of `max` is at least its seed. -/
lemma foldl_max_init_le (l : List ℚ) (a : ℚ) : a ≤ l.foldl max a := by
  induction l generalizing a with
  | nil => exact le_refl a
  | cons x xs ih => exact le_trans (le_max_left a x) (ih (max a x))

/-- A left fold of `max` bounds every list element. -/
lemma foldl_max_mem_le (l : List ℚ) (a x : ℚ) (hx : x ∈ l) : x ≤ l.foldl max a := by
  induction l generalizing a with
  | nil => cases hx
  | cons y ys ih =>
      rcases List.mem_cons.mp hx with h | h
      · subst h
        exact le_trans (le_max_right a x) (foldl_max_init_le ys (max a x))
      · exact ih (max a y) h

/-- A left fold of `max` over elements below the seed is the seed. -/
lemma foldl_max_of_le (l : List ℚ) (a : ℚ) (h : ∀ x ∈ l, x ≤ a) : l.foldl max a = a := by
  induction l with
  | nil => rfl
  | cons y ys ih =>
      have hy : max a y = a := max_eq_left (h y (List.mem_cons_self y ys))
      rw [List.foldl_cons, hy]
      exact ih (fun x hx => h x (List.mem_cons_of_mem y hx))

section SelectionLoop

variable (Xtr : List (List ℚ)) (ytr : List Bool) (Xte : List (List ℚ)) (yte : List Bool)
variable (fit : String → List (List ℚ) → List Bool → MLModel)

/-- Candidate F1 values are nonnegative. -/
lemma qF1_candMetrics_nonneg (n : String) : 0 ≤ qF1 (candMetrics Xtr ytr Xte yte fit n) := by
  unfold candMetrics
  rw [qF1_evaluate_model]
  exact f1_score_nonneg _ _

/-- The stored `f1` of a candidate record is its finite numeric reading. -/
lemma f1Of_candMetrics (n : String) :
    f1Of (candMetrics Xtr ytr Xte yte fit n) =
      MVal.num (qF1 (candMetrics Xtr ytr Xte yte fit n)) := by
  unfold candMetrics
  rw [f1Of_evaluate_model, qF1_evaluate_model]

/-- One unfolding step of the selection loop. -/
lemma trainLoop_cons (name : String) (rest : List String) (acc : BestState) :
    trainLoop Xtr ytr Xte yte fit (name :: rest) acc =
      trainLoop Xtr ytr Xte yte fit rest
        (if mvGt (f1Of (candMetrics Xtr ytr Xte yte fit name)) (f1Of acc.best_metrics)
         then BestState.mk (some name) (some (fit name Xtr ytr)) (candMetrics Xtr ytr Xte yte fit name)
         else acc) := rfl

/-- When no remaining candidate strictly beats the incumbent F1, the loop
keeps the incumbent untouched. -/
lemma trainLoop_stay (names : List String) (acc : BestState) (qa : ℚ)
    (hacc : f1Of acc.best_metrics = MVal.num qa)
    (h : ∀ n ∈ names, qF1 (candMetrics Xtr ytr Xte yte fit n) ≤ qa) :
    trainLoop Xtr ytr Xte yte fit names acc = acc := by
  induction names with
  | nil => rfl
  | cons name rest ih =>
      rw [trainLoop_cons]
      have hc : mvGt (f1Of (candMetrics Xtr ytr Xte yte fit name)) (f1Of acc.best_metrics) = false := by
        rw [f1Of_candMetrics, hacc, mvGt_num]
        exact decide_eq_false (not_lt.mpr (h name (List.mem_cons_self name rest)))
      rw [hc, if_neg (by simp)]
      exact ih (fun n hn => h n (List.mem_cons_of_mem name hn))

/-- When some remaining candidate strictly beats the incumbent F1, the loop
returns the first candidate attaining the maximal F1 (seeded at the
incumbent's value). -/
lemma trainLoop_exceed :
    ∀ (names : List String) (acc : BestState) (qa : ℚ),
    f1Of acc.best_metrics = MVal.num qa →
    (∃ n ∈ names, qa < qF1 (candMetrics Xtr ytr Xte yte fit n)) →
    ∃ sel,
      names.find? (fun n => decide (qF1 (candMetrics Xtr ytr Xte yte fit n) =
          (names.map (fun m => qF1 (candMetrics Xtr ytr Xte yte fit m))).foldl max qa)) = some sel ∧
      trainLoop Xtr ytr Xte yte fit names acc =
        BestState.mk (some sel) (some (fit sel Xtr ytr)) (candMetrics Xtr ytr Xte yte fit sel) := by
  intro names
  induction names with
  | nil =>
      intro acc qa _ hex
      obtain ⟨n, hn, _⟩ := hex
      cases hn
  | cons name rest ih =>
      intro acc qa hacc hex
      rw [trainLoop_cons]
      by_cases hgt : qa < qF1 (candMetrics Xtr ytr Xte yte fit name)
      · have hcond : mvGt (f1Of (candMetrics Xtr ytr Xte yte fit name)) (f1Of acc.best_metrics) = true := by
          rw [f1Of_candMetrics, hacc, mvGt_num]
          exact decide_eq_true hgt
        rw [hcond, if_pos rfl]
        have hacc' : f1Of (BestState.mk (some name) (some (fit name Xtr ytr))
            (candMetrics Xtr ytr Xte yte fit name)).best_metrics =
            MVal.num (qF1 (candMetrics Xtr ytr Xte yte fit name)) := f1Of_candMetrics _ _ _ _ _ _
        have hMcons : ((name :: rest).map (fun m => qF1 (candMetrics Xtr ytr Xte yte fit m))).foldl max qa =
            (rest.map (fun m => qF1 (candMetrics Xtr ytr Xte yte fit m))).foldl max
              (qF1 (candMetrics Xtr ytr Xte yte fit name)) := by
          rw [List.map_cons, List.foldl_cons, max_eq_right (le_of_lt hgt)]
        by_cases h2 : ∃ m ∈ rest, qF1 (candMetrics Xtr ytr Xte yte fit name) < qF1 (candMetrics Xtr ytr Xte yte fit m)
        · obtain ⟨sel, hfind, hloop⟩ := ih _ _ hacc' h2
          refine ⟨sel, ?_, hloop⟩
          rw [hMcons]
          rw [List.find?_cons_of_neg]
          · exact hfind
          · obtain ⟨m, hm, hlt⟩ := h2
            have hle : qF1 (candMetrics Xtr ytr Xte yte fit m) ≤
                (rest.map (fun m => qF1 (candMetrics Xtr ytr Xte yte fit m))).foldl max
                  (qF1 (candMetrics Xtr ytr Xte yte fit name)) :=
              foldl_max_mem_le _ _ _ (List.mem_map_of_mem _ hm)
            simp only [decide_eq_true_eq]
            exact ne_of_lt (lt_of_lt_of_le hlt hle)
        · push_neg at h2
          have hstay := trainLoop_stay Xtr ytr Xte yte fit rest _ _ hacc' h2
          refine ⟨name, ?_, hstay⟩
          have hMax : (rest.map (fun m => qF1 (candMetrics Xtr ytr Xte yte fit m))).foldl max
              (qF1 (candMetrics Xtr ytr Xte yte fit name)) =
              qF1 (candMetrics Xtr ytr Xte yte fit name) := by
            apply foldl_max_of_le
            intro x hx
            obtain ⟨m, hm, rfl⟩ := List.mem_map.mp hx
            exact h2 m hm
          rw [hMcons, hMax]
          apply List.find?_cons_of_pos
          simp
      · have hcond : mvGt (f1Of (candMetrics Xtr ytr Xte yte fit name)) (f1Of acc.best_metrics) = false := by
          rw [f1Of_candMetrics, hacc, mvGt_num]
          exact decide_eq_false hgt
        rw [hcond, if_neg (by simp)]
        have h2 : ∃ m ∈ rest, qa < qF1 (candMetrics Xtr ytr Xte yte fit m) := by
          obtain ⟨n, hn, hlt⟩ := hex
          rcases List.mem_cons.mp hn with h | h
          · subst h; exact absurd hlt hgt
          · exact ⟨n, h, hlt⟩
        obtain ⟨sel, hfind, hloop⟩ := ih acc qa hacc h2
        refine ⟨sel, ?_, hloop⟩
        have hMcons : ((name :: rest).map (fun m => qF1 (candMetrics Xtr ytr Xte yte fit m))).foldl max qa =
            (rest.map (fun m => qF1 (candMetrics Xtr ytr Xte yte fit m))).foldl max qa := by
          rw [List.map_cons, List.foldl_cons, max_eq_left (not_lt.mp hgt)]
        rw [hMcons]
        rw [List.find?_cons_of_neg]
        · exact hfind
        · obtain ⟨m, hm, hlt⟩ := h2
          have hle : qF1 (candMetrics Xtr ytr Xte yte fit m) ≤
              (rest.map (fun m => qF1 (candMetrics Xtr ytr Xte yte fit m))).foldl max qa :=
            foldl_max_mem_le _ _ _ (List.mem_map_of_mem _ hm)
          simp only [decide_eq_true_eq]
          exact ne_of_lt (lt_of_le_of_lt (not_lt.mp hgt) (lt_of_lt_of_le hlt hle))

end SelectionLoop

/-- Sentinel reading: the initial accumulator stores F1 = -1. -/
lemma f1Of_initBest : f1Of initBest.best_metrics = MVal.num (-1) := rfl

/-- C1: in the Candidate Trainer & Selector, the best candidate is tracked
with strict greater-than on F1 starting from a sentinel F1 of -1: for every
sequence of candidates evaluated in menu order, the loop ends on the first
candidate attaining the maximal F1 (so a later candidate replaces the
incumbent only on strictly higher F1), and in particular of two candidates
with identical F1 the first-evaluated one is retained as the selected model. -/
theorem c1_selector_strict_gt_first_max (Xtr : List (List ℚ)) (ytr : List Bool)
    (Xte : List (List ℚ)) (yte : List Bool)
    (fit : String → List (List ℚ) → List Bool → MLModel) (names : List String) :
    (trainLoop Xtr ytr Xte yte fit names initBest =
      match names.find? (fun n => decide (qF1 (candMetrics Xtr ytr Xte yte fit n) =
          (names.map (fun m => qF1 (candMetrics Xtr ytr Xte yte fit m))).foldl max (-1))) with
      | some sel =>
          BestState.mk (some sel) (some (fit sel Xtr ytr)) (candMetrics Xtr ytr Xte yte fit sel)
      | none => initBest) ∧
    (∀ n1 n2 : String,
      qF1 (candMetrics Xtr ytr Xte yte fit n1) = qF1 (candMetrics Xtr ytr Xte yte fit n2) →
      (trainLoop Xtr ytr Xte yte fit [n1, n2] initBest).best_name = some n1) := by
  constructor
  · cases names with
    | nil => rfl
    | cons name rest =>
        have hex : ∃ n ∈ name :: rest, (-1 : ℚ) < qF1 (candMetrics Xtr ytr Xte yte fit n) :=
          ⟨name, List.mem_cons_self name rest,
            lt_of_lt_of_le (by norm_num) (qF1_candMetrics_nonneg Xtr ytr Xte yte fit name)⟩
        obtain ⟨sel, hfind, hloop⟩ :=
          trainLoop_exceed Xtr ytr Xte yte fit (name :: rest) initBest (-1) f1Of_initBest hex
        rw [hloop, hfind]
  · intro n1 n2 heq
    rw [trainLoop_cons]
    have h1 : mvGt (f1Of (candMetrics Xtr ytr Xte yte fit n1)) (f1Of initBest.best_metrics) = true := by
      rw [f1Of_candMetrics, f1Of_initBest, mvGt_num]
      exact decide_eq_true
        (lt_of_lt_of_le (by norm_num) (qF1_candMetrics_nonneg Xtr ytr Xte yte fit n1))
    rw [h1, if_pos rfl, trainLoop_cons]
    have h2 : mvGt (f1Of (candMetrics Xtr ytr Xte yte fit n2))
        (f1Of (BestState.mk (some n1) (some (fit n1 Xtr ytr))
          (candMetrics Xtr ytr Xte yte fit n1)).best_metrics) = false := by
      show mvGt (f1Of (candMetrics Xtr ytr Xte yte fit n2))
        (f1Of (candMetrics Xtr ytr Xte yte fit n1)) = false
      rw [f1Of_candMetrics, f1Of_candMetrics, mvGt_num]
      exact decide_eq_false (by rw [heq]; exact lt_irrefl _)
    rw [h2, if_neg (by simp)]
    rfl

/-- C9: after the candidate loop the selection is never the initial
sentinel: every computed F1 is at least 0 while the sentinel F1 is -1, so
the first candidate always replaces the sentinel and the final state holds
a fitted model (`best_model` is the fitted "logreg" or "rf" model, never
`None`) and a non-null winning candidate name. -/
theorem c9_selected_never_sentinel (Xtr : List (List ℚ)) (ytr : List Bool)
    (Xte : List (List ℚ)) (yte : List Bool)
    (fit : String → List (List ℚ) → List Bool → MLModel) :
    ((mainSelect Xtr ytr Xte yte fit).best_name = some "logreg" ∧
      (mainSelect Xtr ytr Xte yte fit).best_model = some (fit "logreg" Xtr ytr) ∧
      (mainSelect Xtr ytr Xte yte fit).best_metrics = candMetrics Xtr ytr Xte yte fit "logreg") ∨
    ((mainSelect Xtr ytr Xte yte fit).best_name = some "rf" ∧
      (mainSelect Xtr ytr Xte yte fit).best_model = some (fit "rf" Xtr ytr) ∧
      (mainSelect Xtr ytr Xte yte fit).best_metrics = candMetrics Xtr ytr Xte yte fit "rf") := by
  unfold mainSelect candidateNames
  rw [trainLoop_cons]
  have h1 : mvGt (f1Of (candMetrics Xtr ytr Xte yte fit "logreg")) (f1Of initBest.best_metrics) = true := by
    rw [f1Of_candMetrics, f1Of_initBest, mvGt_num]
    exact decide_eq_true
      (lt_of_lt_of_le (by norm_num) (qF1_candMetrics_nonneg Xtr ytr Xte yte fit "logreg"))
  rw [h1, if_pos rfl, trainLoop_cons]
  by_cases h2 : mvGt (f1Of (candMetrics Xtr ytr Xte yte fit "rf"))
      (f1Of (BestState.mk (some "logreg") (some (fit "logreg" Xtr ytr))
        (candMetrics Xtr ytr Xte yte fit "logreg")).best_metrics) = true
  · rw [h2, if_pos rfl]
    right
    exact ⟨rfl, rfl, rfl⟩
  · rw [Bool.not_eq_true] at h2
    rw [h2, if_neg (by simp)]
    left
    exact ⟨rfl, rfl, rfl⟩

/-- Witness for C1: a concrete two-candidate tie (both candidates fit to the
same constant-true classifier, F1 = 1 each) where the first-evaluated
candidate "a" is retained. -/
theorem c1_selector_strict_gt_first_max_witness :
    (trainLoop [[1]] [true] [[1]] [true]
      (fun _ _ _ => MLModel.mk (fun xs => xs.map (fun _ => true)) none)
      ["a", "b"] initBest).best_name = some "a" :=
  (c1_selector_strict_gt_first_max [[1]] [true] [[1]] [true]
    (fun _ _ _ => MLModel.mk (fun xs => xs.map (fun _ => true)) none) ["a", "b"]).2 "a" "b" rfl

/-! Section: theorems about push_space.py. -/

/-- Helper: the README header, with anything appended, passes the
`content.lstrip().startswith("---")` front-matter check. -/
lemma startsWith_lstrip_readmeHeader (sdk : String) :
    pyStartsWith "---" (pyLstrip (readmeHeader sdk)) = true := by
  show ("---".data.isPrefixOf (((readmeHeader sdk).data).dropWhile Char.isWhitespace)) = true
  have h : (readmeHeader sdk).data = '-' :: '-' :: '-' ::
      ("\ntitle: Wellness Tourism App\nsdk: ".data ++
        ((pyLower (pyStrip sdk)).data ++ "\napp_file: app.py\n---\n".data)) := rfl
  rw [h, List.dropWhile_cons_of_neg (by simp)]
  simp [List.isPrefixOf]

/-- Helper: content with the README header prepended passes the
front-matter check. -/
lemma startsWith_lstrip_prepended (sdk content : String) :
    pyStartsWith "---" (pyLstrip (readmeHeader sdk ++ "\n" ++ content)) = true := by
  show ("---".data.isPrefixOf (((readmeHeader sdk ++ "\n" ++ content).data).dropWhile Char.isWhitespace)) = true
  have h : (readmeHeader sdk ++ "\n" ++ content).data = '-' :: '-' :: '-' ::
      ("\ntitle: Wellness Tourism App\nsdk: ".data ++
        ((((pyLower (pyStrip sdk)).data ++ "\napp_file: app.py\n---\n".data) ++ "\n".data) ++ content.data)) := rfl
  rw [h, List.dropWhile_cons_of_neg (by simp)]
  simp [List.isPrefixOf]

/-- C10: the deployment script's README-preparation step is idempotent — for
every folder state (README absent, or present with any content) and every
SDK name, running `ensure_space_readme` a second time on the result of a
first run leaves the README content unchanged: a file starting with YAML
front matter is never rewritten or prepended to again. -/
theorem c10_ensure_space_readme_idempotent (sdk : String) (readme : Option String) :
    ensure_space_readme sdk (ensure_space_readme sdk readme) = ensure_space_readme sdk readme := by
  cases readme with
  | none =>
      simp [ensure_space_readme, startsWith_lstrip_readmeHeader]
  | some content =>
      by_cases h : pyStartsWith "---" (pyLstrip content) = true
      · simp [ensure_space_readme, h]
      · simp [ensure_space_readme, h, startsWith_lstrip_prepended]

/-! Section: theorems about train.py metric handling. -/

/-- Helper: with a single class in the true labels the ROC-AUC is undefined
(a raised error in the library, `none` here). -/
lemma roc_auc_score_single_class (yt : List Bool) (p : List ℚ)
    (h : (∀ b ∈ yt, b = true) ∨ (∀ b ∈ yt, b = false)) :
    roc_auc_score yt p = none := by
  unfold roc_auc_score
  rcases h with h | h
  · have hneg : (yt.zip p).filter (fun x => !x.1) = [] := by
      rw [List.filter_eq_nil_iff]
      intro x hx
      rw [h x.1 (List.of_mem_zip hx).1]
      simp
    simp [hneg]
  · have hpos : (yt.zip p).filter (fun x => x.1) = [] := by
      rw [List.filter_eq_nil_iff]
      intro x hx
      rw [h x.1 (List.of_mem_zip hx).1]
      simp
    simp [hpos]

/-- C5: for every candidate exposing a positive-class probability estimate,
when ROC-AUC is undefined because the test label vector contains a single
class, `evaluate_model` reports `roc_auc` as not-a-number and still returns
the full metrics record (the run continues instead of raising). -/
theorem c5_single_class_roc_auc_nan (model : MLModel) (Xt : List (List ℚ)) (yt : List Bool)
    (hp : model.predict_proba.isSome = true)
    (hsingle : (∀ b ∈ yt, b = true) ∨ (∀ b ∈ yt, b = false)) :
    evaluate_model model Xt yt =
      [("accuracy", MVal.num (accuracy_score yt (model.predict Xt))),
       ("precision", MVal.num (precision_score yt (model.predict Xt))),
       ("recall", MVal.num (recall_score yt (model.predict Xt))),
       ("f1", MVal.num (f1_score yt (model.predict Xt))),
       ("roc_auc", MVal.nan)] ∧
    (evaluate_model model Xt yt).lookup "roc_auc" = some MVal.nan := by
  obtain ⟨f, hf⟩ := Option.isSome_iff_exists.mp hp
  have heq : evaluate_model model Xt yt =
      [("accuracy", MVal.num (accuracy_score yt (model.predict Xt))),
       ("precision", MVal.num (precision_score yt (model.predict Xt))),
       ("recall", MVal.num (recall_score yt (model.predict Xt))),
       ("f1", MVal.num (f1_score yt (model.predict Xt))),
       ("roc_auc", MVal.nan)] := by
    unfold evaluate_model
    rw [hf]
    simp only [Option.map_some']
    rw [roc_auc_score_single_class yt (f Xt) hsingle]
    rfl
  exact ⟨heq, by rw [heq]; simp [List.lookup]⟩

/-- Witness for C5: a probability-exposing model evaluated on an all-ones
test label vector reports `roc_auc` as NaN and the run completes. -/
theorem c5_single_class_roc_auc_nan_witness :
    evaluate_model (MLModel.mk (fun _ => [true, true]) (some (fun _ => [1/2, 1/2]))) [[0],[0]] [true, true] =
      [("accuracy", MVal.num (accuracy_score [true, true] [true, true])),
       ("precision", MVal.num (precision_score [true, true] [true, true])),
       ("recall", MVal.num (recall_score [true, true] [true, true])),
       ("f1", MVal.num (f1_score [true, true] [true, true])),
       ("roc_auc", MVal.nan)] :=
  (c5_single_class_roc_auc_nan
    (MLModel.mk (fun _ => [true, true]) (some (fun _ => [1/2, 1/2]))) [[0],[0]] [true, true]
    rfl (Or.inl (by decide))).1

/-- C7: every evaluated candidate's metrics record contains the four keys
`accuracy`, `precision`, `recall`, `f1` (holding the corresponding scores),
and the precision/recall/F1 computations treat zero-divided-by-zero as
zero: a degenerate prediction vector yields 0.0 for the affected metric and
no division-by-zero error is ever raised. -/
theorem c7_metric_keys_and_zero_division (model : MLModel) (Xt : List (List ℚ)) (yt : List Bool) :
    ((evaluate_model model Xt yt).lookup "accuracy" = some (MVal.num (accuracy_score yt (model.predict Xt))) ∧
     (evaluate_model model Xt yt).lookup "precision" = some (MVal.num (precision_score yt (model.predict Xt))) ∧
     (evaluate_model model Xt yt).lookup "recall" = some (MVal.num (recall_score yt (model.predict Xt))) ∧
     (evaluate_model model Xt yt).lookup "f1" = some (MVal.num (f1_score yt (model.predict Xt)))) ∧
    (tpCount yt (model.predict Xt) + fpCount yt (model.predict Xt) = 0 →
      precision_score yt (model.predict Xt) = 0) ∧
    (tpCount yt (model.predict Xt) + fnCount yt (model.predict Xt) = 0 →
      recall_score yt (model.predict Xt) = 0) ∧
    (2 * tpCount yt (model.predict Xt) + fpCount yt (model.predict Xt) + fnCount yt (model.predict Xt) = 0 →
      f1_score yt (model.predict Xt) = 0) := by
  refine ⟨?_, ?_, ?_, ?_⟩
  · unfold evaluate_model
    cases hp : model.predict_proba with
    | none => simp [List.lookup]
    | some f =>
        simp only [Option.map_some']
        cases roc_auc_score yt (f Xt) <;> simp [List.lookup]
  · intro h
    have h1 : tpCount yt (model.predict Xt) = 0 := by omega
    have h2 : fpCount yt (model.predict Xt) = 0 := by omega
    unfold precision_score safeDiv
    rw [h1, h2]
    norm_num
  · intro h
    have h1 : tpCount yt (model.predict Xt) = 0 := by omega
    have h2 : fnCount yt (model.predict Xt) = 0 := by omega
    unfold recall_score safeDiv
    rw [h1, h2]
    norm_num
  · intro h
    have h1 : tpCount yt (model.predict Xt) = 0 := by omega
    have h2 : fpCount yt (model.predict Xt) = 0 := by omega
    have h3 : fnCount yt (model.predict Xt) = 0 := by omega
    unfold f1_score safeDiv
    rw [h1, h2, h3]
    norm_num

/-- Witness for C7: a model predicting no positives on an all-negative test
vector (tp = fp = fn = 0) gets 0.0 for precision, recall and F1, and the
`f1` key is present in its record. -/
theorem c7_metric_keys_and_zero_division_witness :
    precision_score [false] [false] = 0 ∧ recall_score [false] [false] = 0 ∧
    f1_score [false] [false] = 0 ∧
    (evaluate_model (MLModel.mk (fun _ => [false]) none) [[0]] [false]).lookup "f1" =
      some (MVal.num (f1_score [false] [false])) := by
  have h := c7_metric_keys_and_zero_division (MLModel.mk (fun _ => [false]) none) [[0]] [false]
  exact ⟨h.2.1 (by decide), h.2.2.1 (by decide), h.2.2.2 (by decide), h.1.2.2.2⟩

/-! Section: theorems about app.py. -/

/-- Helper: with any required blob missing from the model repository, the
download loop aborts with an error. -/
lemma downloadRequired_error (repo : Repo) (h : ∃ f ∈ REQUIRED, repo.lookup f = none) :
    ∃ e, downloadRequired repo = Except.error e := by
  cases hp : repo.lookup "preprocessor.joblib" with
  | none =>
      exact ⟨"EntryNotFoundError: preprocessor.joblib",
        by simp [downloadRequired, REQUIRED, hf_hub_download, hp, List.foldlM, Except.map, Bind.bind, Except.bind]⟩
  | some b1 =>
      cases hm : repo.lookup "model.joblib" with
      | none =>
          refine ⟨"EntryNotFoundError: model.joblib", ?_⟩
          simp [downloadRequired, REQUIRED, hf_hub_download, hp, hm, List.foldlM, Except.map, Bind.bind, Except.bind]
      | some b2 =>
          cases hme : repo.lookup "meta.joblib" with
          | none =>
              refine ⟨"EntryNotFoundError: meta.joblib", ?_⟩
              simp [downloadRequired, REQUIRED, hf_hub_download, hp, hm, hme, List.foldlM, Except.map, Bind.bind, Except.bind]
          | some b3 =>
              exfalso
              obtain ⟨f, hf, hnone⟩ := h
              simp only [REQUIRED, List.mem_cons, List.mem_singleton] at hf
              rcases hf with rfl | rfl | hf
              · rw [hp] at hnone; cases hnone
              · rw [hm] at hnone; cases hnone
              · rcases hf with rfl | hf
                · rw [hme] at hnone; cases hnone
                · cases hf

/-- C2: if any of the three required artifact blobs (model, preprocessor,
metadata) is missing from the model repository, the inference surface's run
ends in a reported error and takes no further action — in particular no
prediction is attempted. -/
theorem c2_missing_artifact_no_prediction (repo : Repo) (user : String → Option Value)
    (submitted : Bool) (h : ∃ f ∈ REQUIRED, repo.lookup f = none) :
    (∃ e, runApp repo user submitted = Except.error e) ∧
    ∀ outcome : Option AppOutcome, runApp repo user submitted ≠ Except.ok outcome := by
  obtain ⟨e, he⟩ := downloadRequired_error repo h
  constructor
  · exact ⟨e, by unfold runApp; rw [he]⟩
  · intro outcome hout
    unfold runApp at hout
    rw [he] at hout
    cases hout

/-- Witness for C2: an empty model repository makes the app abort with an
error before any prediction. -/
theorem c2_missing_artifact_no_prediction_witness :
    ∃ e, runApp [] (fun _ => none) true = Except.error e :=
  (c2_missing_artifact_no_prediction [] (fun _ => none) true
    ⟨"preprocessor.joblib", by decide, rfl⟩).1

/-! Section: theorems about data_prep.py error handling. -/

/-- C6: the Data Splitter raises a fatal error when the label column is
absent from the input dataset's schema; the diagnostic names the missing
column (`ProdTaken`) and no split artifacts are produced. -/
theorem c6_missing_label_column_fatal (df : DFrame) (h : TARGET ∉ df.cols) :
    cleanAndSplit df =
      Except.error ("Target column '" ++ TARGET ++ "' not found in dataset columns: " ++ toString df.cols) ∧
    ∀ r : SplitResult, cleanAndSplit df ≠ Except.ok r := by
  have he : cleanAndSplit df =
      Except.error ("Target column '" ++ TARGET ++ "' not found in dataset columns: " ++ toString df.cols) := by
    unfold cleanAndSplit
    rw [if_neg h]
  exact ⟨he, fun r hr => by rw [he] at hr; cases hr⟩

/-- Witness for C6: a dataframe with only an `Age` column aborts with the
diagnostic naming `ProdTaken`. -/
theorem c6_missing_label_column_fatal_witness :
    cleanAndSplit (DFrame.mk ["Age"] []) =
      Except.error ("Target column '" ++ TARGET ++ "' not found in dataset columns: " ++ toString ["Age"]) :=
  (c6_missing_label_column_fatal (DFrame.mk ["Age"] []) (by decide)).1

/-- Helper: inserting pairwise-fresh keys into a Python dict appends them in
insertion order. -/
lemma foldl_dictInsert_fresh (cs : List String) (v : String → Value) :
    ∀ (d : List (String × Value)),
    (∀ c ∈ cs, ∀ kv ∈ d, kv.1 ≠ c) → cs.Nodup →
    cs.foldl (fun d c => dictInsert d c (v c)) d = d ++ cs.map (fun c => (c, v c)) := by
  induction cs with
  | nil => intro d _ _; simp
  | cons c cs ih =>
      intro d hfresh hnodup
      rw [List.foldl_cons]
      have hins : dictInsert d c (v c) = d ++ [(c, v c)] := by
        unfold dictInsert
        rw [if_neg]
        simp only [List.any_eq_true, not_exists, not_and]
        intro kv hkv
        intro hk
        exact absurd (of_decide_eq_true hk) (hfresh c (List.mem_cons_self c cs) kv hkv)
      rw [hins]
      rw [ih (d ++ [(c, v c)]) ?_ (List.Nodup.of_cons hnodup)]
      · rw [List.append_assoc]
        rfl
      · intro c' hc' kv hkv
        rcases List.mem_append.mp hkv with hkv | hkv
        · exact hfresh c' (List.mem_cons_of_mem c hc') kv hkv
        · rcases List.mem_singleton.mp hkv with rfl
          intro hk
          have : c ∈ cs := by rw [← hk] at hc' ; exact hc'
          exact (List.nodup_cons.mp hnodup).1 this

/-- Helper: looking up a present key in a key-value list built by mapping. -/
lemma lookup_map_pair (cs : List String) (v : String → Value) (c : String) (hc : c ∈ cs) :
    (cs.map (fun k => (k, v k))).lookup c = some (v c) := by
  induction cs with
  | nil => cases hc
  | cons k ks ih =>
      by_cases h : c = k
      · subst h
        simp [List.lookup]
      · rcases List.mem_cons.mp hc with h' | h'
        · exact absurd h' h
        · simp only [List.map_cons, List.lookup_cons]
          rw [show (c == k) = false from beq_eq_false_iff_ne.mpr h]
          exact ih h'

/-- Helper: looking up an absent key in a key-value list built by mapping. -/
lemma lookup_map_pair_none (cs : List String) (v : String → Value) (c : String) (hc : c ∉ cs) :
    (cs.map (fun k => (k, v k))).lookup c = none := by
  induction cs with
  | nil => rfl
  | cons k ks ih =>
      simp only [List.map_cons, List.lookup_cons]
      rw [show (c == k) = false from beq_eq_false_iff_ne.mpr (fun h => hc (h ▸ List.mem_cons_self k ks))]
      exact ih (fun h => hc (List.mem_cons_of_mem k h))

/-- Helper: a successful lookup in the left part survives appending. -/
lemma lookup_append_of_some {A B : List (String × Value)} {c : String} {b : Value}
    (h : A.lookup c = some b) : (A ++ B).lookup c = some b := by
  induction A with
  | nil => cases h
  | cons kv A ih =>
      obtain ⟨k, b'⟩ := kv
      simp only [List.cons_append, List.lookup_cons] at h ⊢
      cases hck : (c == k) with
      | true => rw [hck] at h; exact h
      | false => rw [hck] at h; exact ih h

/-- Helper: a failed lookup in the left part defers to the right part. -/
lemma lookup_append_of_none {A B : List (String × Value)} {c : String}
    (h : A.lookup c = none) : (A ++ B).lookup c = B.lookup c := by
  induction A with
  | nil => rfl
  | cons kv A ih =>
      obtain ⟨k, b'⟩ := kv
      simp only [List.cons_append, List.lookup_cons] at h ⊢
      cases hck : (c == k) with
      | true => rw [hck] at h; cases h
      | false => rw [hck] at h; exact ih h

/-- Helper: the keys of a mapped key-value list are the original keys. -/
lemma map_fst_pair (l : List String) (e : String → Value) :
    (l.map (fun c => (c, e c))).map Prod.fst = l := by
  rw [List.map_map]
  exact List.map_id l

/-- Helper: with pairwise-distinct schema columns, the form dict is exactly
one entry per numeric column (user value or default 0.0) followed by one
entry per categorical column (user value or default empty text). -/
lemma formInputs_eq (meta : MetaBlob) (user : String → Option Value)
    (hnodup : (meta.numeric_cols ++ meta.categorical_cols).Nodup) :
    formInputs meta user =
      meta.numeric_cols.map (fun c => (c, (user c).getD (Value.num 0))) ++
      meta.categorical_cols.map (fun c => (c, (user c).getD (Value.str ""))) := by
  unfold formInputs
  have h1 : meta.numeric_cols.foldl
      (fun d c => dictInsert d c ((user c).getD (Value.num 0))) [] =
      meta.numeric_cols.map (fun c => (c, (user c).getD (Value.num 0))) := by
    rw [foldl_dictInsert_fresh _ _ [] (by intro c _ kv hkv; cases hkv) hnodup.of_append_left]
    rfl
  rw [h1]
  exact foldl_dictInsert_fresh _ _ _
    (by
      intro c hc kv hkv
      obtain ⟨k, hk, rfl⟩ := List.mem_map.mp hkv
      exact fun h => (List.disjoint_of_nodup_append hnodup) (h ▸ hk) hc)
    (List.Nodup.of_append_right hnodup)

/-- C8: the inference surface generates one form input field per schema
column (numeric fields defaulting to 0.0, categorical fields defaulting to
empty text), and on submission assembles the single raw record into exactly
the metadata's declared column order — all numeric columns followed by all
categorical columns — before applying the transform and predicting. -/
theorem c8_form_defaults_and_column_order (meta : MetaBlob) (user : String → Option Value)
    (preproc : List (String × Value) → List ℚ) (m : MLModel)
    (hnodup : (meta.numeric_cols ++ meta.categorical_cols).Nodup) :
    ((formInputs meta user).map Prod.fst = meta.numeric_cols ++ meta.categorical_cols) ∧
    (∀ c ∈ meta.numeric_cols, user c = none → (formInputs meta user).lookup c = some (Value.num 0)) ∧
    (∀ c ∈ meta.categorical_cols, user c = none → (formInputs meta user).lookup c = some (Value.str "")) ∧
    ((assembleRecord meta (formInputs meta user)).map Prod.fst = meta.numeric_cols ++ meta.categorical_cols) ∧
    (assembleRecord meta (formInputs meta user) = formInputs meta user) ∧
    (predictOutcome preproc m meta user =
      AppOutcome.mk (boolToInt ((m.predict [preproc (assembleRecord meta (formInputs meta user))]).headD false))
        (m.predict_proba.map (fun g => (g [preproc (assembleRecord meta (formInputs meta user))]).headD 0))) := by
  have hdisj := List.disjoint_of_nodup_append hnodup
  have hform := formInputs_eq meta user hnodup
  have hlookupNum : ∀ c ∈ meta.numeric_cols,
      (formInputs meta user).lookup c = some ((user c).getD (Value.num 0)) := by
    intro c hc
    rw [hform]
    exact lookup_append_of_some (lookup_map_pair _ _ _ hc)
  have hlookupCat : ∀ c ∈ meta.categorical_cols,
      (formInputs meta user).lookup c = some ((user c).getD (Value.str "")) := by
    intro c hc
    rw [hform]
    rw [lookup_append_of_none (lookup_map_pair_none _ _ _ (fun h => hdisj h hc))]
    exact lookup_map_pair _ _ _ hc
  refine ⟨?_, ?_, ?_, ?_, ?_, rfl⟩
  · rw [hform, List.map_append, map_fst_pair, map_fst_pair]
  · intro c hc hu
    rw [hlookupNum c hc, hu]
    rfl
  · intro c hc hu
    rw [hlookupCat c hc, hu]
    rfl
  · exact map_fst_pair _ _
  · unfold assembleRecord
    rw [List.map_append]
    conv_rhs => rw [hform]
    congr 1
    · apply List.map_congr_left
      intro c hc
      rw [hlookupNum c hc]
      rfl
    · apply List.map_congr_left
      intro c hc
      rw [hlookupCat c hc]
      rfl

/-- Witness for C8: with schema `["Age"]` numeric / `["City"]` categorical
and no user edits, the form holds 0.0 for `Age`, empty text for `City`, in
that column order. -/
theorem c8_form_defaults_and_column_order_witness :
    (formInputs (MetaBlob.mk ["Age"] ["City"]) (fun _ => none)).lookup "Age" = some (Value.num 0) ∧
    (formInputs (MetaBlob.mk ["Age"] ["City"]) (fun _ => none)).lookup "City" = some (Value.str "") ∧
    (formInputs (MetaBlob.mk ["Age"] ["City"]) (fun _ => none)).map Prod.fst = ["Age", "City"] := by
  have h := c8_form_defaults_and_column_order (MetaBlob.mk ["Age"] ["City"]) (fun _ => none)
    (fun _ => [0]) (MLModel.mk (fun _ => [true]) none) (by decide)
  exact ⟨h.2.1 "Age" (by decide) rfl, h.2.2.1 "City" (by decide) rfl, h.1⟩


/-- Helper: the code-point lexicographic order is total. -/
lemma lexLe_total : ∀ (as bs : List Char), lexLe as bs = true ∨ lexLe bs as = true
  | [], _ => Or.inl rfl
  | _ :: _, [] => Or.inr rfl
  | a :: as, b :: bs => by
      rcases lt_trichotomy a b with h | h | h
      · left
        simp [lexLe, h]
      · subst h
        rcases lexLe_total as bs with ih | ih
        · left
          simp [lexLe, ih]
        · right
          simp [lexLe, ih]
      · right
        simp [lexLe, h]

/-- Helper: the code-point lexicographic order is transitive. -/
lemma lexLe_trans : ∀ (as bs cs : List Char),
    lexLe as bs = true → lexLe bs cs = true → lexLe as cs = true
  | [], _, _, _, _ => rfl
  | _ :: _, [], _, h1, _ => by cases h1
  | _ :: _, _ :: _, [], _, h2 => by cases h2
  | a :: as, b :: bs, c :: cs, h1, h2 => by
      simp only [lexLe] at h1 h2 ⊢
      by_cases hab : a < b
      · by_cases hbc : b < c
        · simp [lt_trans hab hbc]
        · by_cases hbc' : b = c
          · subst hbc'
            simp [hab]
          · rw [if_neg hbc, if_neg hbc'] at h2
            cases h2
      · by_cases hab' : a = b
        · subst hab'
          by_cases hbc : a < c
          · simp [hbc]
          · by_cases hbc' : a = c
            · subst hbc'
              rw [if_neg hbc, if_pos rfl] at h1 h2 ⊢
              exact lexLe_trans as bs cs h1 h2
            · rw [if_neg hbc, if_neg hbc'] at h2
              cases h2
        · rw [if_neg hab, if_neg hab'] at h1
          cases h1

/-- Helper: string comparison is total. -/
lemma strLe_total (a b : String) : strLe a b = true ∨ strLe b a = true := lexLe_total a.data b.data

/-- Helper: string comparison is transitive. -/
lemma strLe_trans {a b c : String} (h1 : strLe a b = true) (h2 : strLe b c = true) :
    strLe a c = true := lexLe_trans a.data b.data c.data h1 h2

/-- Helper: membership after an ordered insertion. -/
lemma mem_insertSorted (s a : String) : ∀ (l : List String),
    (a ∈ insertSorted s l ↔ a = s ∨ a ∈ l)
  | [] => by simp [insertSorted]
  | t :: rest => by
      unfold insertSorted
      by_cases h : strLe s t = true
      · rw [if_pos h]
        simp [List.mem_cons]
      · rw [if_neg h]
        rw [List.mem_cons, mem_insertSorted s a rest, List.mem_cons]
        tauto

/-- Helper: sorting keeps exactly the original members. -/
lemma mem_pySorted (a : String) (l : List String) : a ∈ pySorted l ↔ a ∈ l := by
  induction l with
  | nil => simp [pySorted]
  | cons x xs ih =>
      unfold pySorted at ih ⊢
      rw [List.foldr_cons, mem_insertSorted, ih, List.mem_cons]

/-- Helper: ordered insertion preserves sortedness. -/
lemma pairwise_insertSorted (s : String) (l : List String)
    (h : List.Pairwise (fun a b => strLe a b = true) l) :
    List.Pairwise (fun a b => strLe a b = true) (insertSorted s l) := by
  induction l with
  | nil => simp [insertSorted]
  | cons t rest ih =>
      unfold insertSorted
      rcases List.pairwise_cons.mp h with ⟨ht, hrest⟩
      by_cases hst : strLe s t = true
      · rw [if_pos hst]
        rw [List.pairwise_cons]
        constructor
        · intro a ha
          rcases List.mem_cons.mp ha with rfl | ha
          · exact hst
          · exact strLe_trans hst (ht a ha)
        · exact h
      · rw [if_neg hst]
        rw [List.pairwise_cons]
        constructor
        · intro a ha
          rcases (mem_insertSorted s a rest).mp ha with heq | ha
          · subst heq
            rcases strLe_total a t with h' | h'
            · exact absurd h' hst
            · exact h'
          · exact ht a ha
        · exact ih hrest

/-- Helper: the output of the sort is sorted. -/
lemma pairwise_pySorted (l : List String) :
    List.Pairwise (fun a b => strLe a b = true) (pySorted l) := by
  induction l with
  | nil => exact List.Pairwise.nil
  | cons x xs ih =>
      unfold pySorted at ih ⊢
      rw [List.foldr_cons]
      exact pairwise_insertSorted x _ ih

/-- Helper: a name lands in the numeric list iff some column bears it,
it is not the label, and that column has a numeric dtype. -/
lemma mem_splitCols_fst (s : String) : ∀ (cols : List Column),
    (s ∈ (splitCols cols).1 ↔ ∃ c ∈ cols, c.name = s ∧ s ≠ TARGET ∧ c.numericDtype = true)
  | [] => by simp [splitCols]
  | c :: rest => by
      unfold splitCols
      by_cases ht : c.name = TARGET
      · rw [if_pos ht]
        rw [mem_splitCols_fst s rest]
        constructor
        · rintro ⟨d, hd, h⟩
          exact ⟨d, List.mem_cons_of_mem c hd, h⟩
        · rintro ⟨d, hd, hname, hne, hnum⟩
          rcases List.mem_cons.mp hd with rfl | hd
          · exact absurd (hname ▸ ht) hne
          · exact ⟨d, hd, hname, hne, hnum⟩
      · rw [if_neg ht]
        by_cases hn : c.numericDtype = true
        · rw [if_pos hn]
          simp only [List.mem_cons]
          rw [mem_splitCols_fst s rest]
          constructor
          · rintro (rfl | ⟨d, hd, h⟩)
            · exact ⟨c, Or.inl rfl, rfl, ht, hn⟩
            · exact ⟨d, Or.inr hd, h⟩
          · rintro ⟨d, (rfl | hd), hname, hne, hnum⟩
            · exact Or.inl hname.symm
            · exact Or.inr ⟨d, hd, hname, hne, hnum⟩
        · rw [if_neg hn]
          rw [mem_splitCols_fst s rest]
          constructor
          · rintro ⟨d, hd, h⟩
            exact ⟨d, List.mem_cons_of_mem c hd, h⟩
          · rintro ⟨d, hd, hname, hne, hnum⟩
            rcases List.mem_cons.mp hd with rfl | hd
            · exact absurd hnum hn
            · exact ⟨d, hd, hname, hne, hnum⟩

/-- Helper: a name lands in the categorical list iff some column bears it,
it is not the label, and that column has a non-numeric dtype. -/
lemma mem_splitCols_snd (s : String) : ∀ (cols : List Column),
    (s ∈ (splitCols cols).2 ↔ ∃ c ∈ cols, c.name = s ∧ s ≠ TARGET ∧ c.numericDtype = false)
  | [] => by simp [splitCols]
  | c :: rest => by
      unfold splitCols
      by_cases ht : c.name = TARGET
      · rw [if_pos ht]
        rw [mem_splitCols_snd s rest]
        constructor
        · rintro ⟨d, hd, h⟩
          exact ⟨d, List.mem_cons_of_mem c hd, h⟩
        · rintro ⟨d, hd, hname, hne, hnum⟩
          rcases List.mem_cons.mp hd with rfl | hd
          · exact absurd (hname ▸ ht) hne
          · exact ⟨d, hd, hname, hne, hnum⟩
      · rw [if_neg ht]
        by_cases hn : c.numericDtype = true
        · rw [if_pos hn]
          rw [mem_splitCols_snd s rest]
          constructor
          · rintro ⟨d, hd, h⟩
            exact ⟨d, List.mem_cons_of_mem c hd, h⟩
          · rintro ⟨d, hd, hname, hne, hnum⟩
            rcases List.mem_cons.mp hd with rfl | hd
            · rw [hn] at hnum; cases hnum
            · exact ⟨d, hd, hname, hne, hnum⟩
        · rw [if_neg hn]
          simp only [List.mem_cons]
          rw [mem_splitCols_snd s rest]
          constructor
          · rintro (rfl | ⟨d, hd, h⟩)
            · exact ⟨c, Or.inl rfl, rfl, ht, Bool.not_eq_true _ ▸ hn⟩
            · exact ⟨d, Or.inr hd, h⟩
          · rintro ⟨d, (rfl | hd), hname, hne, hnum⟩
            · exact Or.inl hname.symm
            · exact Or.inr ⟨d, hd, hname, hne, hnum⟩

/-- C4: the Column Classifier partitions the non-label columns into a
numeric set and a categorical set: the two outputs are disjoint, their
union is exactly the set of non-label column names, each output is sorted
lexicographically, and the empty dataset yields two empty sets. -/
theorem c4_column_classifier (cols : List Column)
    (hnodup : (cols.map Column.name).Nodup) :
    (∀ s, s ∈ (infer_cols cols).1 → s ∉ (infer_cols cols).2) ∧
    (∀ s, (s ∈ (infer_cols cols).1 ∨ s ∈ (infer_cols cols).2) ↔
      ((∃ c ∈ cols, c.name = s) ∧ s ≠ TARGET)) ∧
    List.Pairwise (fun a b => strLe a b = true) (infer_cols cols).1 ∧
    List.Pairwise (fun a b => strLe a b = true) (infer_cols cols).2 ∧
    infer_cols [] = ([], []) := by
  refine ⟨?_, ?_, ?_, ?_, rfl⟩
  · intro s h1 h2
    rw [show (infer_cols cols).1 = pySorted (splitCols cols).1 from rfl, mem_pySorted] at h1
    rw [show (infer_cols cols).2 = pySorted (splitCols cols).2 from rfl, mem_pySorted] at h2
    obtain ⟨c1, hc1, hn1, hne, hd1⟩ := (mem_splitCols_fst s cols).mp h1
    obtain ⟨c2, hc2, hn2, _, hd2⟩ := (mem_splitCols_snd s cols).mp h2
    have hceq : c1 = c2 := List.inj_on_of_nodup_map hnodup hc1 hc2 (by rw [hn1, hn2])
    rw [hceq, hd2] at hd1
    cases hd1
  · intro s
    rw [show (infer_cols cols).1 = pySorted (splitCols cols).1 from rfl,
        show (infer_cols cols).2 = pySorted (splitCols cols).2 from rfl,
        mem_pySorted, mem_pySorted, mem_splitCols_fst, mem_splitCols_snd]
    constructor
    · rintro (⟨c, hc, hn, hne, _⟩ | ⟨c, hc, hn, hne, _⟩) <;> exact ⟨⟨c, hc, hn⟩, hne⟩
    · rintro ⟨⟨c, hc, hn⟩, hne⟩
      cases hd : c.numericDtype
      · right
        exact ⟨c, hc, hn, hne, hd⟩
      · left
        exact ⟨c, hc, hn, hne, hd⟩
  · exact pairwise_pySorted _
  · exact pairwise_pySorted _

/-- Witness for C4: on a concrete three-column frame the numeric name
`Age` is not in the categorical output. -/
theorem c4_column_classifier_witness :
    "Age" ∉ (infer_cols [Column.mk "ProdTaken" true, Column.mk "City" false, Column.mk "Age" true]).2 :=
  (c4_column_classifier [Column.mk "ProdTaken" true, Column.mk "City" false, Column.mk "Age" true]
    (by decide)).1 "Age" (by decide)


/-- Helper: membership in the deduplication walk. -/
lemma mem_dropDuplicatesAux {α : Type} [DecidableEq α] (a : α) :
    ∀ (l seen : List α), (a ∈ dropDuplicatesAux seen l ↔ a ∈ l ∧ a ∉ seen)
  | [], seen => by simp [dropDuplicatesAux]
  | r :: rest, seen => by
      unfold dropDuplicatesAux
      by_cases hr : r ∈ seen
      · rw [if_pos hr, mem_dropDuplicatesAux a rest seen]
        simp only [List.mem_cons]
        constructor
        · rintro ⟨ha, hs⟩
          exact ⟨Or.inr ha, hs⟩
        · rintro ⟨h | ha, hs⟩
          · exact absurd (h.symm ▸ hr) hs
          · exact ⟨ha, hs⟩
      · rw [if_neg hr, List.mem_cons, mem_dropDuplicatesAux a rest (r :: seen)]
        simp only [List.mem_cons]
        constructor
        · rintro (h | ⟨ha, hs⟩)
          · exact ⟨Or.inl h, fun hs' => hr (h ▸ hs')⟩
          · exact ⟨Or.inr ha, fun hsn => hs (Or.inr hsn)⟩
        · rintro ⟨h | ha, hs⟩
          · exact Or.inl h
          · by_cases har : a = r
            · exact Or.inl har
            · exact Or.inr ⟨ha, fun hsn => hsn.elim har hs⟩

/-- Helper: the deduplication walk emits no duplicates. -/
lemma nodup_dropDuplicatesAux {α : Type} [DecidableEq α] :
    ∀ (l seen : List α), (dropDuplicatesAux seen l).Nodup
  | [], seen => List.nodup_nil
  | r :: rest, seen => by
      unfold dropDuplicatesAux
      by_cases hr : r ∈ seen
      · rw [if_pos hr]
        exact nodup_dropDuplicatesAux rest seen
      · rw [if_neg hr, List.nodup_cons]
        refine ⟨?_, nodup_dropDuplicatesAux rest (r :: seen)⟩
        intro hmem
        exact ((mem_dropDuplicatesAux r rest (r :: seen)).mp hmem).2 (List.mem_cons_self r seen)

/-- Helper: deduplication keeps exactly the original members. -/
lemma mem_dropDuplicates{α : Type} [DecidableEq α] (l : List α) (a : α) :
    a ∈ dropDuplicates l ↔ a ∈ l := by
  unfold dropDuplicates
  rw [mem_dropDuplicatesAux a l []]
  simp

/-- Helper: deduplicated rows are pairwise distinct. -/
lemma nodup_dropDuplicates{α : Type} [DecidableEq α] (l : List α) :
    (dropDuplicates l).Nodup :=
  nodup_dropDuplicatesAux l []

/-- Helper: picking one element and erasing it permutes the list. -/
lemma cons_eraseIdx_perm (l : List ℕ) (i : ℕ) (hi : i < l.length) :
    List.Perm (l[i] :: l.eraseIdx i) l := by
  have h1 : List.Perm l (l[i] :: l.erase l[i]) := List.perm_cons_erase (l.getElem_mem hi)
  have h2 : List.Perm (l.erase l[i]) (l.eraseIdx i) := List.erase_getElem hi
  exact ((h1.trans (List.Perm.cons _ h2))).symm

/-- Helper: the seeded shuffle permutes its input (length-bounded form). -/
lemma seededShuffle_perm_aux :
    ∀ (n : ℕ) (s : ℕ) (l : List ℕ), l.length ≤ n → List.Perm (seededShuffle s l) l
  | 0, s, [], _ => by rw [seededShuffle]
  | 0, s, x :: l, h => by cases h
  | n + 1, s, [], _ => by rw [seededShuffle]
  | n + 1, s, a :: t, h => by
      rw [seededShuffle]
      have hi : s % (a :: t).length < (a :: t).length := Nat.mod_lt _ (Nat.succ_pos _)
      have hlen : ((a :: t).eraseIdx (s % (a :: t).length)).length ≤ n := by
        have h2 := List.length_eraseIdx_add_one hi
        omega
      have hperm := seededShuffle_perm_aux n (lcgStep s) _ hlen
      rw [List.get_eq_getElem]
      exact (hperm.cons _).trans (cons_eraseIdx_perm (a :: t) (s % (a :: t).length) hi)

/-- Helper: the seeded shuffle permutes its input. -/
lemma seededShuffle_perm(s : ℕ) (l : List ℕ) : List.Perm (seededShuffle s l) l :=
  seededShuffle_perm_aux l.length s l (le_refl _)

/-- Helper: positions of a class are exactly the in-range positions whose
label equals that class. -/
lemma mem_idxOfClass (labels : List ℤ) (c : ℤ) (i : ℕ) :
    i ∈ idxOfClass labels c ↔ i < labels.length ∧ labels.get? i = some c := by
  unfold idxOfClass
  rw [List.mem_filter, List.mem_range]
  simp only [decide_eq_true_eq]

/-- Helper: class position lists have no duplicates. -/
lemma nodup_idxOfClass (labels : List ℤ) (c : ℤ) : (idxOfClass labels c).Nodup :=
  List.Nodup.filter _ (List.nodup_range _)

/-- Helper: membership in the train side of the stratified split. -/
lemma mem_split_train (seed : ℕ) (labels : List ℤ) (i : ℕ) :
    i ∈ (stratifiedSplit seed labels).1 ↔ ∃ c ∈ classValues labels,
      i ∈ (seededShuffle seed (idxOfClass labels c)).drop
        (((seededShuffle seed (idxOfClass labels c)).length + 4) / 5) := by
  simp only [stratifiedSplit, List.mem_flatten, List.mem_map, List.map_map]
  constructor
  · rintro ⟨l, ⟨c, hc, rfl⟩, hil⟩
    exact ⟨c, hc, hil⟩
  · rintro ⟨c, hc, hi⟩
    exact ⟨_, ⟨c, hc, rfl⟩, hi⟩

/-- Helper: membership in the test side of the stratified split. -/
lemma mem_split_test (seed : ℕ) (labels : List ℤ) (i : ℕ) :
    i ∈ (stratifiedSplit seed labels).2 ↔ ∃ c ∈ classValues labels,
      i ∈ (seededShuffle seed (idxOfClass labels c)).take
        (((seededShuffle seed (idxOfClass labels c)).length + 4) / 5) := by
  simp only [stratifiedSplit, List.mem_flatten, List.mem_map, List.map_map]
  constructor
  · rintro ⟨l, ⟨c, hc, rfl⟩, hil⟩
    exact ⟨c, hc, hil⟩
  · rintro ⟨c, hc, hi⟩
    exact ⟨_, ⟨c, hc, rfl⟩, hi⟩

/-- Helper: every cleaned-row position lands in exactly one side — here,
together the two sides cover the positions. -/
lemma stratifiedSplit_union (seed : ℕ) (labels : List ℤ) (i : ℕ) :
    (i ∈ (stratifiedSplit seed labels).1 ∨ i ∈ (stratifiedSplit seed labels).2) ↔
      i < labels.length := by
  rw [mem_split_train, mem_split_test]
  constructor
  · rintro (⟨c, hc, hi⟩ | ⟨c, hc, hi⟩)
    · have hm : i ∈ idxOfClass labels c :=
        (seededShuffle_perm seed _).mem_iff.mp (List.mem_of_mem_drop hi)
      exact ((mem_idxOfClass _ _ _).mp hm).1
    · have hm : i ∈ idxOfClass labels c :=
        (seededShuffle_perm seed _).mem_iff.mp (List.mem_of_mem_take hi)
      exact ((mem_idxOfClass _ _ _).mp hm).1
  · intro hi
    obtain ⟨c, hc⟩ : ∃ c, labels.get? i = some c :=
      ⟨labels.get ⟨i, hi⟩, List.get?_eq_get hi⟩
    have hcv : c ∈ classValues labels := (mem_dropDuplicates labels c).mpr (List.get?_mem hc)
    have hidx : i ∈ idxOfClass labels c := (mem_idxOfClass _ _ _).mpr ⟨hi, hc⟩
    have hsh : i ∈ seededShuffle seed (idxOfClass labels c) :=
      (seededShuffle_perm seed _).mem_iff.mpr hidx
    have hsplit : i ∈ (seededShuffle seed (idxOfClass labels c)).take
          (((seededShuffle seed (idxOfClass labels c)).length + 4) / 5) ++
        (seededShuffle seed (idxOfClass labels c)).drop
          (((seededShuffle seed (idxOfClass labels c)).length + 4) / 5) := by
      rw [List.take_append_drop]
      exact hsh
    rcases List.mem_append.mp hsplit with h | h
    · right
      exact ⟨c, hcv, h⟩
    · left
      exact ⟨c, hcv, h⟩

/-- Helper: the two sides of the stratified split are disjoint. -/
lemma stratifiedSplit_disjoint (seed : ℕ) (labels : List ℤ) :
    List.Disjoint (stratifiedSplit seed labels).1 (stratifiedSplit seed labels).2 := by
  intro i h1 h2
  rw [mem_split_train] at h1
  rw [mem_split_test] at h2
  obtain ⟨c, hc, hdrop⟩ := h1
  obtain ⟨c', hc', htake⟩ := h2
  have hic : i ∈ idxOfClass labels c :=
    (seededShuffle_perm seed _).mem_iff.mp (List.mem_of_mem_drop hdrop)
  have hic' : i ∈ idxOfClass labels c' :=
    (seededShuffle_perm seed _).mem_iff.mp (List.mem_of_mem_take htake)
  have hcc : c = c' := by
    have e1 := ((mem_idxOfClass _ _ _).mp hic).2
    have e2 := ((mem_idxOfClass _ _ _).mp hic').2
    rw [e1] at e2
    exact Option.some_injective _ e2
  subst hcc
  have hnd : (seededShuffle seed (idxOfClass labels c)).Nodup :=
    ((seededShuffle_perm seed _).nodup_iff).mpr (nodup_idxOfClass labels c)
  exact List.disjoint_take_drop hnd (le_refl _) htake hdrop

/-- Helper: a successful monadic map preserves length. -/
lemma mapM_option_length {α β : Type} (f : α → Option β) :
    ∀ (l : List α) (l' : List β), l.mapM f = some l' → l'.length = l.length := by
  intro l
  induction l with
  | nil =>
      intro l' h
      rw [List.mapM_nil] at h
      cases h
      rfl
  | cons a t ih =>
      intro l' h
      rw [List.mapM_cons] at h
      cases hfa : f a with
      | none =>
          rw [hfa] at h
          cases h
      | some b =>
          rw [hfa] at h
          cases hbs : t.mapM f with
          | none =>
              rw [hbs] at h
              cases h
          | some bs =>
              rw [hbs] at h
              cases h
              simp [ih bs hbs]

/-- C3: the Data Splitter removes exact duplicates, then rows with a
missing label, then coerces the label to integer, then stratified-splits
with seed 42 and test fraction 0.2; the train and test position lists are
disjoint and their union (as original row identities into the cleaned
dataset) is exactly the cleaned dataset. -/
theorem c3_clean_and_stratified_split (df : DFrame) (labels : List ℤ)
    (hT : TARGET ∈ df.cols)
    (hc : (((dropDuplicates df.rows).filter (fun r => !(labelCell df r = some Value.na))).map
        (fun r => (labelCell df r).getD Value.na)).mapM valueToInt = some labels) :
    cleanAndSplit df = Except.ok (SplitResult.mk
        ((dropDuplicates df.rows).filter (fun r => !(labelCell df r = some Value.na)))
        labels (stratifiedSplit 42 labels).1 (stratifiedSplit 42 labels).2) ∧
    List.Disjoint (stratifiedSplit 42 labels).1 (stratifiedSplit 42 labels).2 ∧
    (∀ i, (i ∈ (stratifiedSplit 42 labels).1 ∨ i ∈ (stratifiedSplit 42 labels).2) ↔
      i < labels.length) ∧
    labels.length =
      ((dropDuplicates df.rows).filter (fun r => !(labelCell df r = some Value.na))).length := by
  refine ⟨?_, stratifiedSplit_disjoint 42 labels, fun i => stratifiedSplit_union 42 labels i, ?_⟩
  · unfold cleanAndSplit
    rw [if_pos hT]
    simp only [hc]
  · have hl := mapM_option_length valueToInt _ _ hc
    rw [hl, List.length_map]

/-- Witness for C3: a concrete four-row frame (one duplicate, one missing
label) is cleaned and split into disjoint covering parts. -/
theorem c3_clean_and_stratified_split_witness :
    cleanAndSplit (DFrame.mk ["Age", "ProdTaken"]
        [[Value.num 30, Value.num 1], [Value.num 30, Value.num 1],
         [Value.num 20, Value.na], [Value.num 25, Value.num 0]]) =
      Except.ok (SplitResult.mk
        ((dropDuplicates [[Value.num 30, Value.num 1], [Value.num 30, Value.num 1],
            [Value.num 20, Value.na], [Value.num 25, Value.num 0]]).filter
          (fun r => !(labelCell (DFrame.mk ["Age", "ProdTaken"]
            [[Value.num 30, Value.num 1], [Value.num 30, Value.num 1],
             [Value.num 20, Value.na], [Value.num 25, Value.num 0]]) r = some Value.na)))
        [1, 0] (stratifiedSplit 42 [1, 0]).1 (stratifiedSplit 42 [1, 0]).2) :=
  (c3_clean_and_stratified_split (DFrame.mk ["Age", "ProdTaken"]
    [[Value.num 30, Value.num 1], [Value.num 30, Value.num 1],
     [Value.num 20, Value.na], [Value.num 25, Value.num 0]]) [1, 0]
    (by decide) (by decide)).1
